import Mathlib

/-!
Verification development for the NitroCanvas-Auctions off-chain bid
settlement engine (back/src/utils/pricing.ts, `ERC7824Service`, together
with back/src/routes/auction.routes.ts and back/src/jobs/index.ts).

The service is embedded shallowly: the in-memory channel map, the SQL
tables touched by the service, and the externally supplied collaborators
(EIP-712 signature recovery, the marketplace contract, wall-clock values
produced by `Date.now()` / `new Date()`) become explicit parameters, and
each method of the service becomes a pure state-passing function.
Monetary amounts are arbitrary-precision integers (`Int`), matching the
`BigInt` values produced by `ethers.getBigInt`; the bids table schema is
not part of the repository, so following the spec's data model the
`amount` column is modelled as an integer column.
-/

namespace NitroCanvas

/-- Addresses and identifiers travel as strings through the service, as in
the TypeScript source. -/
abbrev Address := String

/-- Lower-casing used by `validateBidSignature`
(`recoveredAddress.toLowerCase() === bidData.bidder.toLowerCase()`). -/
def lowerStr (s : String) : String := ⟨s.data.map Char.toLower⟩

/-- The `ethers.ZeroAddress` constant. -/
def zeroAddress : Address := "0x0000000000000000000000000000000000000000"

/-- Interface `BidData` of pricing.ts: the payload of one signed bid.
`amount` is kept as the integer value `ethers.getBigInt(bidData.amount)`
parses it to. -/
structure BidData where
  auctionId : String
  bidder : Address
  amount : Int
  signature : String
  nonce : Nat
  timestamp : Nat
deriving DecidableEq, Repr

/-- The five signed fields `{auctionId, bidder, amount, nonce, timestamp}`
over which the EIP-712 typed message is built, and over whose ABI encoding
`storeBid` computes the keccak256 bid hash.  The hash itself is modelled
by this record (keccak256 is treated as a collision-free encoding). -/
structure BidMessage where
  auctionId : String
  bidder : Address
  amount : Int
  nonce : Nat
  timestamp : Nat
deriving DecidableEq, Repr

/-- Projection of a `BidData` to its signed message fields. -/
def bidMessageOf (b : BidData) : BidMessage :=
  { auctionId := b.auctionId, bidder := b.bidder, amount := b.amount
    nonce := b.nonce, timestamp := b.timestamp }

/-- The idempotency key computed by `storeBid`:
`keccak256(abiCoder.encode([...five fields...]))`, modelled as the encoded
tuple itself. -/
def bidHashOf (b : BidData) : BidMessage := bidMessageOf b

/-- EIP-712 domain object built in the service constructor. -/
structure Domain where
  name : String
  version : String
  chainId : Nat
  verifyingContract : Address
deriving DecidableEq, Repr

/-- Domain constructed by the `ERC7824Service` constructor:
`{ name: 'NFTMarketplaceAuction', version: '1', chainId: 11155111,
verifyingContract: marketplaceContract.target }`. -/
def mkDomain (verifyingContract : Address) : Domain :=
  { name := "NFTMarketplaceAuction", version := "1", chainId := 11155111
    verifyingContract := verifyingContract }

/-- The external `ethers.verifyTypedData` collaborator: given the domain,
the typed message and the signature it either recovers a signer address or
fails (malformed signature).  It is an opaque parameter of the embedding;
the service never inspects how it works. -/
abbrev RecoverFn := Domain → BidMessage → String → Except String Address

/-- Method `validateBidSignature` of `ERC7824Service`: recover the signer
of the typed, domain-separated message and compare it case-insensitively
with the claimed bidder; a recovery failure is caught and yields `false`. -/
def validateBidSignature (recover : RecoverFn) (dom : Domain) (bidData : BidData) : Bool :=
  match recover dom (bidMessageOf bidData) bidData.signature with
  | .error _ => false
  | .ok recoveredAddress => lowerStr recoveredAddress == lowerStr bidData.bidder

/-- Interface `AuctionChannelState` of pricing.ts.  `highestBid` is kept
as the integer value of the stored string; the source's
`highestBid === '0' || !highestBid ? 0n : getBigInt(highestBid)` guard
collapses to reading this integer, since every stored string denoting zero
is mapped to `0`. -/
structure ChannelState where
  auctionId : String
  participants : List Address
  bids : List BidData
  highestBid : Int
  highestBidder : Address
  turnNum : Nat
deriving DecidableEq, Repr

/-- The `channels : Map<string, AuctionChannelState>` member, as an
association list keyed by channel id. -/
abbrev Channels := List (String × ChannelState)

/-- `Map.get`. -/
def lookupChannel (ch : Channels) (channelId : String) : Option ChannelState :=
  match ch with
  | [] => none
  | (k, v) :: rest => if k = channelId then some v else lookupChannel rest channelId

/-- `Map.set`: replace the binding when present, append it otherwise. -/
def setChannel (ch : Channels) (channelId : String) (st : ChannelState) : Channels :=
  match ch with
  | [] => [(channelId, st)]
  | (k, v) :: rest =>
      if k = channelId then (channelId, st) :: rest
      else (k, v) :: setChannel rest channelId st

/-- The initial state installed by `createAuctionChannel`: no
participants, no bids, highest bid `'0'`, highest bidder the zero address,
turn number 0. -/
def initialChannelState (auctionId : String) : ChannelState :=
  { auctionId := auctionId, participants := [], bids := []
    highestBid := 0, highestBidder := zeroAddress, turnNum := 0 }

/-- Method `createAuctionChannel`: the channel id is
`keccak256('auction_${auctionId}_${Date.now()}')`, an externally-random
fresh key supplied here as a parameter; the method installs the initial
state under it. -/
def createAuctionChannel (ch : Channels) (channelId auctionId : String) : Channels :=
  setChannel ch channelId (initialChannelState auctionId)

/-- Row of the `auctions` table, restricted to the columns the service
reads or writes. -/
structure AuctionRow where
  id : String
  startingPrice : Int
  minBidIncrement : Int
  startTime : Nat
  endTime : Nat
  status : String
  settlementStatus : Option String
  settlementAttemptedAt : Option Nat
  settlementTxHash : Option String
  contractAuctionId : Option Nat
  highestBid : Int
  highestBidder : Address
deriving DecidableEq, Repr

/-- Row of the `bids` table as inserted by `storeBid`. -/
structure BidRow where
  auctionId : String
  bidderId : String
  amount : Int
  signature : String
  nonce : Nat
  bidHash : BidMessage
  signatureValidUntil : Option Nat
  timestamp : Nat
deriving DecidableEq, Repr

/-- Row of the `settlement_attempts` table. -/
structure SettlementAttemptRow where
  auctionId : String
  winningBidId : Option String
  txHash : Option String
  status : String
  errorMessage : Option String
  gasUsed : Option Nat
  blockNumber : Option Nat
deriving DecidableEq, Repr

/-- The durable store: the tables the service queries.  `users` maps a
wallet address to the user id `storeBid` looks up or creates. -/
structure Db where
  auctions : List AuctionRow
  bids : List BidRow
  users : List (Address × String)
  attempts : List SettlementAttemptRow
deriving DecidableEq, Repr

/-- `SELECT ... FROM auctions WHERE id = $1`. -/
def findAuction (db : Db) (auctionId : String) : Option AuctionRow :=
  db.auctions.find? (fun a => a.id = auctionId)

/-- The user lookup-or-create step of `storeBid`.  The source generates a
fresh `uuidv4()` for a new user; the uuid is external randomness whose
value the service never inspects, so it is modelled by a deterministic
fresh tag. -/
def getOrCreateUser (users : List (Address × String)) (wallet : Address) :
    String × List (Address × String) :=
  match users.lookup wallet with
  | some uid => (uid, users)
  | none => ("user:" ++ wallet, users ++ [(wallet, "user:" ++ wallet)])

/-- Method `storeBid`: compute the bid hash, read the auction's end time
as `signature_valid_until`, look up or create the bidder's user row, and
`INSERT ... ON CONFLICT (bid_hash) DO NOTHING` into `bids`. -/
def storeBid (db : Db) (bidData : BidData) : Db :=
  let bidHash := bidHashOf bidData
  let validUntil := (findAuction db bidData.auctionId).map (fun a => a.endTime)
  let idUsers := getOrCreateUser db.users bidData.bidder
  if db.bids.any (fun r => r.bidHash = bidHash) then
    { db with users := idUsers.2 }
  else
    { db with
      users := idUsers.2
      bids := db.bids ++
        [{ auctionId := bidData.auctionId, bidderId := idUsers.1
           amount := bidData.amount, signature := bidData.signature
           nonce := bidData.nonce, bidHash := bidHash
           signatureValidUntil := validUntil, timestamp := bidData.timestamp }] }

/-- The `UPDATE auctions SET highest_bidder = $1, highest_bid = $2 WHERE
id = $3` statement issued by `processBid` after a bid is accepted. -/
def updateAuctionHighest (db : Db) (bidData : BidData) : Db :=
  { db with auctions := db.auctions.map (fun a =>
      if a.id = bidData.auctionId then
        { a with highestBidder := bidData.bidder, highestBid := bidData.amount }
      else a) }

/-- The errors `processBid` throws, in source order. -/
inductive BidError where
  | invalidSignature
  | channelNotFound
  | auctionNotFound
  | bidTooLow (required provided : Int)
deriving DecidableEq, Repr

/-- The mutable state of one `ERC7824Service` instance together with the
durable store it talks to. -/
structure SysState where
  db : Db
  channels : Channels
deriving DecidableEq, Repr

/-- Method `processBid`: validate the signature, fetch the channel state,
fetch the auction row, check the bid amount against
`currentHighest == 0 ? starting_price : currentHighest + min_bid_increment`,
and on success append the bid to the channel, persist it via `storeBid`,
project it onto the auction row, and install the new channel state.  The
returned `Except` is the thrown error / returned `true` of the source;
the returned `SysState` is the service state after the call (unchanged
when an error is thrown, since every throw happens before the mutations). -/
def processBid (recover : RecoverFn) (dom : Domain) (s : SysState)
    (channelId : String) (bidData : BidData) : SysState × Except BidError Bool :=
  if validateBidSignature recover dom bidData = false then
    (s, .error .invalidSignature)
  else
    match lookupChannel s.channels channelId with
    | none => (s, .error .channelNotFound)
    | some currentState =>
      let bidAmount := bidData.amount
      let currentHighest := currentState.highestBid
      match findAuction s.db bidData.auctionId with
      | none => (s, .error .auctionNotFound)
      | some row =>
        let minBid := if currentHighest = 0 then row.startingPrice
                      else currentHighest + row.minBidIncrement
        if bidAmount < minBid then
          (s, .error (.bidTooLow minBid bidAmount))
        else
          let newState : ChannelState :=
            { currentState with
              bids := currentState.bids ++ [bidData]
              highestBid := bidData.amount
              highestBidder := bidData.bidder
              turnNum := currentState.turnNum + 1 }
          let db1 := storeBid s.db bidData
          let db2 := updateAuctionHighest db1 bidData
          ({ db := db2, channels := setChannel s.channels channelId newState }, .ok true)

/-! ## Settlement (`settleAuction` and its helpers) -/

/-- Single step of a one-pass selection fold: keep the incumbent unless
the candidate is strictly better. -/
def pickStep {α : Type} (better : α → α → Bool) (acc : Option α) (b : α) : Option α :=
  match acc with
  | none => some b
  | some c => if better b c then some b else some c

/-- Generic one-pass selection over a row list.  The SQL
`ORDER BY ... LIMIT 1` reductions and the channel-level winner projection
are instances of this fold. -/
def pickFold {α : Type} (better : α → α → Bool) (l : List α) : Option α :=
  l.foldl (pickStep better) none

/-- Preference of `ORDER BY CAST(amount AS NUMERIC) DESC, timestamp ASC`:
strictly larger amount first, then strictly earlier timestamp. -/
def betterRow (b c : BidRow) : Bool :=
  decide (c.amount < b.amount) ||
    (decide (b.amount = c.amount) && decide (b.timestamp < c.timestamp))

/-- Preference of `ORDER BY b.timestamp ASC`: strictly earlier timestamp
first. -/
def betterTs (b c : BidRow) : Bool :=
  decide (b.timestamp < c.timestamp)

/-- Outcome of the external marketplace-contract call
`completeAuction(contract_auction_id)` followed by `tx.wait()`:
either the transaction is sent and confirmed (hash, gas used, block
number), or sending throws, or sending succeeds and waiting throws. -/
inductive TxOutcome where
  | success (txHash : String) (gasUsed blockNumber : Nat)
  | sendFailure (msg : String)
  | waitFailure (txHash : String) (msg : String)
deriving DecidableEq, Repr

/-- The external marketplace contract collaborator, keyed by the
`contract_auction_id` argument passed to `completeAuction`. -/
abbrev ContractFn := Option Nat → TxOutcome

/-- `SELECT ... FROM bids WHERE auction_id = $1`. -/
def bidsFor (db : Db) (auctionId : String) : List BidRow :=
  db.bids.filter (fun b => b.auctionId = auctionId)

/-- `SELECT MAX(amount) FROM bids WHERE auction_id = $1`: `none` on an
empty bid set (SQL `NULL`).  Amounts are integers per the spec's data
model (the schema itself is not in the repository). -/
def maxAmount? (l : List BidRow) : Option Int :=
  l.foldl (fun acc b =>
    match acc with
    | none => some b.amount
    | some m => some (max m b.amount)) none

/-- `ORDER BY b.timestamp ASC LIMIT 1` over a row set: the row with the
least timestamp (the first such row when timestamps tie). -/
def earliestRow? (l : List BidRow) : Option BidRow :=
  pickFold betterTs l

/-- The winning-bid query at the top of `settleAuction`:
`SELECT a.*, b.* FROM auctions a LEFT JOIN bids b ON a.id = b.auction_id
WHERE a.id = $1 AND b.amount = (SELECT MAX(amount) FROM bids WHERE
auction_id = $1) ORDER BY b.timestamp ASC LIMIT 1`.
With zero bids the `b.amount = NULL` comparison filters every joined row
out, so the query yields no row at all. -/
def winnerRowQuery (db : Db) (auctionId : String) : Option (AuctionRow × BidRow) :=
  match findAuction db auctionId with
  | none => none
  | some a =>
    match maxAmount? (bidsFor db auctionId) with
    | none => none
    | some m =>
      (earliestRow? ((bidsFor db auctionId).filter (fun b => b.amount = m))).map
        (fun b => (a, b))

/-- Method `getWinningBid`:
`SELECT bidder_id as bidder, ... FROM bids WHERE auction_id = $1 ORDER BY
CAST(amount AS NUMERIC) DESC, timestamp ASC LIMIT 1`, re-packed as a
`BidData` whose `bidder` field carries the stored `bidder_id`. -/
def getWinningBid (db : Db) (auctionId : String) : Option BidData :=
  (pickFold betterRow (bidsFor db auctionId)).map (fun r =>
    { auctionId := auctionId, bidder := r.bidderId, amount := r.amount
      signature := r.signature, nonce := r.nonce, timestamp := r.timestamp })

/-- `UPDATE auctions SET settlement_status = $1 ... WHERE id = $2`. -/
def setSettlementStatus (db : Db) (auctionId status : String) : Db :=
  { db with auctions := db.auctions.map (fun a =>
      if a.id = auctionId then { a with settlementStatus := some status } else a) }

/-- `UPDATE auctions SET settlement_status = 'processing',
settlement_attempted_at = $2 WHERE id = $3`. -/
def markProcessing (db : Db) (auctionId : String) (now : Nat) : Db :=
  { db with auctions := db.auctions.map (fun a =>
      if a.id = auctionId then
        { a with settlementStatus := some "processing", settlementAttemptedAt := some now }
      else a) }

/-- `UPDATE auctions SET status = 'completed', settlement_status =
'completed' WHERE id = $3`, as issued by `processERC7824Settlement` and
`handleNoBidsSettlement`. -/
def markCompleted (db : Db) (auctionId : String) : Db :=
  { db with auctions := db.auctions.map (fun a =>
      if a.id = auctionId then
        { a with status := "completed", settlementStatus := some "completed" }
      else a) }

/-- The catch-block of `settleAuction`: mark the auction's settlement
failed, insert a failed `settlement_attempts` row carrying the error
message, and re-throw. -/
def settleFail (db : Db) (auctionId msg : String) : Db × Except String Unit :=
  let db1 := setSettlementStatus db auctionId "failed"
  let db2 := { db1 with attempts := db1.attempts ++
    [{ auctionId := auctionId, winningBidId := none, txHash := none
       status := "failed", errorMessage := some msg
       gasUsed := none, blockNumber := none }] }
  (db2, .error msg)

/-- Method `settleAuction` of the service (the copy invoked by the
`POST /:auctionId/settle` route): run the winning-bid query (throwing
`'Auction or winning bid not found'` when it yields no row), mark the
settlement processing, and dispatch on the winning amount and on
`contract_auction_id`: the zero/no-amount branch calls the contract and
marks the auction completed; the ERC-7824 branch (no contract auction id)
marks the auction completed with no external call; the legacy branch
calls the contract, records a pending settlement attempt, promotes it to
success on confirmation and completes the auction.  Every thrown error is
routed through the catch-block `settleFail`. -/
def settleAuction (contractCall : ContractFn) (now : Nat) (db : Db)
    (auctionId : String) : Db × Except String Unit :=
  match winnerRowQuery db auctionId with
  | none => settleFail db auctionId "Auction or winning bid not found"
  | some (auction, wbid) =>
    let db1 := markProcessing db auctionId now
    if wbid.amount = 0 then
      match contractCall auction.contractAuctionId with
      | .sendFailure m => settleFail db1 auctionId m
      | .waitFailure _ m => settleFail db1 auctionId m
      | .success _ _ _ => (markCompleted db1 auctionId, .ok ())
    else
      match auction.contractAuctionId with
      | none => (markCompleted db1 auctionId, .ok ())
      | some caid =>
        match contractCall (some caid) with
        | .sendFailure m => settleFail db1 auctionId m
        | .waitFailure tx m =>
          let db2 := { db1 with attempts := db1.attempts ++
            [{ auctionId := auctionId, winningBidId := some wbid.bidderId
               txHash := some tx, status := "pending", errorMessage := none
               gasUsed := none, blockNumber := none }] }
          settleFail db2 auctionId m
        | .success tx gas blk =>
          let db2 : Db := { db1 with attempts := db1.attempts ++
            [{ auctionId := auctionId, winningBidId := some wbid.bidderId
               txHash := some tx, status := "pending", errorMessage := none
               gasUsed := none, blockNumber := none }] }
          let db3 : Db := { db2 with attempts := db2.attempts.map (fun r =>
            if r.txHash = some tx then
              { r with status := "success", gasUsed := some gas, blockNumber := some blk }
            else r) }
          let db4 : Db := { db3 with auctions := db3.auctions.map (fun a =>
            if a.id = auctionId then
              { a with status := "completed", settlementStatus := some "completed"
                       settlementTxHash := some tx
                       highestBidder := wbid.bidderId, highestBid := wbid.amount }
            else a) }
          (db4, .ok ())

/-! ## Winner selection over the in-memory bid list, reachability, and
spec-side comparison definitions -/

/-- The preference used for winner selection over channel bids: strictly
larger amount wins, and on equal amounts the strictly earlier timestamp
wins. -/
def betterBid (b c : BidData) : Bool :=
  decide (c.amount < b.amount) || (decide (b.amount = c.amount) && decide (b.timestamp < c.timestamp))

/-- The max-amount bid of a channel's ordered bid list, ties broken by
earliest timestamp (the spec's derived projection of an auction's
highest bid/bidder). -/
def selectWinner (l : List BidData) : Option BidData := pickFold betterBid l

/-- Predicate stating that `w` is a winning choice from the rows `l`: it
is one of the rows, no row has a larger amount, and among the max-amount
rows none has an earlier timestamp.  This is the spec's description of
the settlement winner. -/
def IsWinningRow (l : List BidRow) (w : BidRow) : Prop :=
  w ∈ l ∧ (∀ b ∈ l, b.amount ≤ w.amount) ∧
    ∀ b ∈ l, b.amount = w.amount → w.timestamp ≤ b.timestamp

/-- Modelled from the spec: `requiredMinimum = auction.startingPrice if
ledgerState has no accepted bids, else ledgerState.highestBid +
auction.minIncrement`.  Stated in the spec's own terms (emptiness of the
accepted-bid list) for comparison with the code's check, which branches
on `currentHighest === 0n` instead. -/
def specRequiredMinimum (row : AuctionRow) (st : ChannelState) : Int :=
  if st.bids = [] then row.startingPrice else st.highestBid + row.minBidIncrement

/-- Data-model invariant of the spec carried by every auction row:
positive starting price and positive minimum increment. -/
def DbParamsOK (db : Db) : Prop :=
  ∀ a ∈ db.auctions, 0 < a.startingPrice ∧ 0 < a.minBidIncrement

/-- States of the service reachable for a fixed channel id: start from any
state whose store satisfies the data-model invariant and whose channel
map carries the freshly created channel, then apply any sequence of
accepted `processBid` calls on that channel. -/
inductive ChanReach (recover : RecoverFn) (dom : Domain) (cid : String) : SysState → Prop where
  | init (s : SysState) (aid : String) :
      DbParamsOK s.db →
      lookupChannel s.channels cid = some (initialChannelState aid) →
      ChanReach recover dom cid s
  | step (s s1 : SysState) (bid : BidData) :
      ChanReach recover dom cid s →
      processBid recover dom s cid bid = (s1, .ok true) →
      ChanReach recover dom cid s1

/-- The channel-state invariant: the turn counter counts the accepted
bids, amounts strictly increase along the list (hence are positive given
a positive first amount), and the highest bid/bidder fields are exactly
the max-amount (tie: earliest-timestamp) projection of the list. -/
def ChannelInv (st : ChannelState) : Prop :=
  st.turnNum = st.bids.length ∧
  List.Pairwise (fun a b => a.amount < b.amount) st.bids ∧
  (∀ b ∈ st.bids, 0 < b.amount) ∧
  ((st.bids = [] ∧ st.highestBid = 0 ∧ st.highestBidder = zeroAddress) ∨
   ∃ w, selectWinner st.bids = some w ∧ st.highestBid = w.amount ∧ st.highestBidder = w.bidder)

/-! ## Concrete instances used to evaluate the embedding -/

/-- Recovery collaborator that recovers exactly the claimed bidder: every
signature verifies (the honest-signer scenario). -/
def recover0 : RecoverFn := fun _ msg _ => .ok msg.bidder

/-- Recovery collaborator that always fails: every signature is
malformed. -/
def recoverBad : RecoverFn := fun _ _ _ => .error "invalid signature"

/-- A concrete service domain. -/
def dom0 : Domain := mkDomain "0xMarketplaceContract"

/-- A contract collaborator whose calls always confirm. -/
def cc0 : ContractFn := fun _ => .success "0xtx" 21000 1

/-- Helper for building a fresh active auction row. -/
def mkAuction (id : String) (sp inc : Int) (startT endT : Nat)
    (caid : Option Nat) : AuctionRow :=
  { id := id, startingPrice := sp, minBidIncrement := inc
    startTime := startT, endTime := endT, status := "active"
    settlementStatus := none, settlementAttemptedAt := none
    settlementTxHash := none, contractAuctionId := caid
    highestBid := 0, highestBidder := zeroAddress }

/-- Helper for building a stored bid row. -/
def mkBidRow (aid bidder : String) (amt : Int) (nonce ts : Nat) : BidRow :=
  { auctionId := aid, bidderId := bidder, amount := amt, signature := "0xsig"
    nonce := nonce, bidHash := ⟨aid, bidder, amt, nonce, ts⟩
    signatureValidUntil := some 1000, timestamp := ts }

/-- Auction with zero recorded bids, for the settlement-with-no-bids
scenario. -/
def c1Db : Db := ⟨[mkAuction "a1" 100 10 0 1000 (some 7)], [], [], []⟩

/-- Store holding one active auction ending at time 1000 and no bids. -/
def c2Db : Db := ⟨[mkAuction "a1" 100 10 0 1000 none], [], [], []⟩

/-- Service state with that store and one freshly created channel. -/
def c2Sys : SysState := ⟨c2Db, [("ch", initialChannelState "a1")]⟩

/-- A bid whose timestamp 2000 lies after the auction's end time 1000. -/
def c2Bid : BidData := ⟨"a1", "0xbidder", 100, "0xsig", 1, 2000⟩

/-- First bid of the nonce-replay scenario: nonce 5. -/
def c3Bid1 : BidData := ⟨"a1", "0xbidder", 100, "0xsig1", 5, 10⟩

/-- Second bid of the nonce-replay scenario: the same bidder reuses nonce
5 with a larger amount. -/
def c3Bid2 : BidData := ⟨"a1", "0xbidder", 200, "0xsig2", 5, 20⟩

/-- Service state after the first nonce-5 bid is accepted. -/
def c3Sys1 : SysState := (processBid recover0 dom0 c2Sys "ch" c3Bid1).1

/-- The bid submitted twice in the duplicate-submission scenario. -/
def c4Bid : BidData := ⟨"a1", "0xbidder", 100, "0xsig", 1, 10⟩

/-- Service state after the first submission of `c4Bid` is accepted. -/
def c4Sys1 : SysState := (processBid recover0 dom0 c2Sys "ch" c4Bid).1

/-- A previously accepted bid of amount 100. -/
def c5BidOld : BidData := ⟨"a1", "0xold", 100, "0xs0", 1, 5⟩

/-- Channel state after `c5BidOld` was accepted. -/
def c5St : ChannelState :=
  { auctionId := "a1", participants := [], bids := [c5BidOld]
    highestBid := 100, highestBidder := "0xold", turnNum := 1 }

/-- Service state for the boundary-minimum scenario: highest bid 100,
minimum increment 10. -/
def c5Sys : SysState := ⟨⟨[mkAuction "a1" 100 10 0 1000 none], [], [], []⟩, [("ch", c5St)]⟩

/-- Bid at exactly `previousHighest + minIncrement` (110). -/
def c5BidHi : BidData := ⟨"a1", "0xnew", 110, "0xs1", 2, 6⟩

/-- Bid one unit below the required minimum (109). -/
def c5BidLo : BidData := ⟨"a1", "0xnew", 109, "0xs1", 2, 6⟩

/-- Store with three durably recorded bids: amount 9 at time 5, and two
amount-10 bids at times 3 and 7 (a tie on the maximum amount). -/
def c6Db : Db :=
  ⟨[mkAuction "a1" 1 1 0 1000 none],
   [mkBidRow "a1" "u1" 9 1 5, mkBidRow "a1" "u2" 10 1 3, mkBidRow "a1" "u3" 10 1 7],
   [], []⟩

/-- Store with an ERC-7824 auction (no contract auction id) whose end
time 1000 has not passed at clock value 5, and one recorded bid. -/
def c7Db : Db := ⟨[mkAuction "a1" 100 10 0 1000 none], [mkBidRow "a1" "u1" 100 1 10], [], []⟩

/-- Fresh service state for the channel-invariant scenario. -/
def c8Sys0 : SysState := ⟨⟨[mkAuction "a1" 100 10 0 1000 none], [], [], []⟩,
  [("ch", initialChannelState "a1")]⟩

/-- First accepted bid of the channel-invariant scenario. -/
def c8BidA : BidData := ⟨"a1", "0xalice", 100, "0xsa", 1, 10⟩

/-- Second accepted bid of the channel-invariant scenario. -/
def c8BidB : BidData := ⟨"a1", "0xbob", 110, "0xsb", 1, 20⟩

/-- State after the first accepted bid. -/
def c8Sys1 : SysState := (processBid recover0 dom0 c8Sys0 "ch" c8BidA).1

/-- State after the second accepted bid. -/
def c8Sys2 : SysState := (processBid recover0 dom0 c8Sys1 "ch" c8BidB).1

/-- A bid whose claimed bidder carries mixed-case hex characters. -/
def c9Bid : BidData := ⟨"a1", "0xAbC", 100, "0xsig", 1, 10⟩

/-! ## Lemmas about the selection folds -/

/-- Running the selection fold from an incumbent `c` yields a result that
is `c` or a list element, and that is preferred (in the sense of any
preorder compatible with `better`) to `c` and to every list element. -/
theorem pickFold_go {α : Type} (better : α → α → Bool) (P : α → α → Prop)
    (hrefl : ∀ a, P a a)
    (htrans : ∀ a b c, P a b → P b c → P a c)
    (h1 : ∀ b c, better b c = true → P b c)
    (h2 : ∀ b c, better b c = false → P c b) :
    ∀ (l : List α) (c : α), ∃ w, l.foldl (pickStep better) (some c) = some w ∧
      (w = c ∨ w ∈ l) ∧ P w c ∧ ∀ b ∈ l, P w b := by
  intro l
  induction l with
  | nil => exact fun c => ⟨c, rfl, .inl rfl, hrefl c, by simp⟩
  | cons b t ih =>
    intro c
    by_cases hb : better b c = true
    · obtain ⟨w, hw, hmem, hPb, hPl⟩ := ih b
      refine ⟨w, ?_, ?_, htrans _ _ _ hPb (h1 _ _ hb), ?_⟩
      · simpa [List.foldl_cons, pickStep, hb] using hw
      · rcases hmem with h | h
        · exact .inr (by simp [h])
        · exact .inr (by simp [h])
      · intro x hx
        rcases List.mem_cons.mp hx with rfl | hx
        · exact hPb
        · exact hPl x hx
    · have hb' : better b c = false := by simpa using hb
      obtain ⟨w, hw, hmem, hPc, hPl⟩ := ih c
      refine ⟨w, ?_, ?_, hPc, ?_⟩
      · simpa [List.foldl_cons, pickStep, hb'] using hw
      · rcases hmem with h | h
        · exact .inl h
        · exact .inr (by simp [h])
      · intro x hx
        rcases List.mem_cons.mp hx with rfl | hx
        · exact htrans _ _ _ hPc (h2 _ _ hb')
        · exact hPl x hx

/-- On a nonempty list the selection fold returns an element preferred to
every element. -/
theorem pickFold_spec {α : Type} (better : α → α → Bool) (P : α → α → Prop)
    (hrefl : ∀ a, P a a)
    (htrans : ∀ a b c, P a b → P b c → P a c)
    (h1 : ∀ b c, better b c = true → P b c)
    (h2 : ∀ b c, better b c = false → P c b)
    (l : List α) (hl : l ≠ []) :
    ∃ w, pickFold better l = some w ∧ w ∈ l ∧ ∀ b ∈ l, P w b := by
  match l, hl with
  | b :: t, _ =>
    obtain ⟨w, hw, hmem, hPb, hPl⟩ := pickFold_go better P hrefl htrans h1 h2 t b
    refine ⟨w, ?_, ?_, ?_⟩
    · simpa [pickFold, List.foldl_cons, pickStep] using hw
    · rcases hmem with rfl | h
      · exact List.mem_cons_self _ _
      · exact List.mem_cons_of_mem _ h
    · intro x hx
      rcases List.mem_cons.mp hx with rfl | hx
      · exact hPb
      · exact hPl x hx

/-- The selection fold only ever returns a list element. -/
theorem pickFold_mem {α : Type} (better : α → α → Bool) {l : List α} {w : α}
    (h : pickFold better l = some w) : w ∈ l := by
  match l with
  | [] => simp [pickFold] at h
  | b :: t =>
    obtain ⟨w1, hw, hmem, -, -⟩ :=
      pickFold_go better (fun _ _ => True) (fun _ => trivial)
        (fun _ _ _ _ _ => trivial) (fun _ _ _ => trivial) (fun _ _ _ => trivial) t b
    have hw1 : pickFold better (b :: t) = some w1 := by
      simpa [pickFold, List.foldl_cons, pickStep] using hw
    have hww : w = w1 := by
      rw [hw1] at h
      exact (Option.some_inj.mp h).symm
    subst hww
    rcases hmem with rfl | h
    · exact List.mem_cons_self _ _
    · exact List.mem_cons_of_mem _ h

/-- The selection fold is `none` only on the empty list. -/
theorem pickFold_eq_none {α : Type} (better : α → α → Bool) {l : List α}
    (h : pickFold better l = none) : l = [] := by
  match l with
  | [] => rfl
  | b :: t =>
    obtain ⟨w1, hw, -, -, -⟩ :=
      pickFold_go better (fun _ _ => True) (fun _ => trivial)
        (fun _ _ _ _ _ => trivial) (fun _ _ _ => trivial) (fun _ _ _ => trivial) t b
    have hw1 : pickFold better (b :: t) = some w1 := by
      simpa [pickFold, List.foldl_cons, pickStep] using hw
    rw [hw1] at h
    cases h

/-- Appending one element runs one extra selection step. -/
theorem pickFold_append {α : Type} (better : α → α → Bool) (l : List α) (x : α) :
    pickFold better (l ++ [x]) = pickStep better (pickFold better l) x := by
  simp [pickFold, List.foldl_append]

/-- Dominance order on stored bid rows: at least as large an amount, and
no later a timestamp among equal amounts. -/
def RowLE (w b : BidRow) : Prop :=
  b.amount ≤ w.amount ∧ (b.amount = w.amount → w.timestamp ≤ b.timestamp)

/-- Dominance order on channel bids, same shape as `RowLE`. -/
def BidLE (w b : BidData) : Prop :=
  b.amount ≤ w.amount ∧ (b.amount = w.amount → w.timestamp ≤ b.timestamp)

theorem rowLE_refl (a : BidRow) : RowLE a a := ⟨le_refl _, fun _ => le_refl _⟩

theorem rowLE_trans (a b c : BidRow) (hab : RowLE a b) (hbc : RowLE b c) : RowLE a c := by
  obtain ⟨h1, h2⟩ := hab
  obtain ⟨h3, h4⟩ := hbc
  refine ⟨le_trans h3 h1, fun hca => ?_⟩
  have hba : b.amount = a.amount := le_antisymm h1 (hca ▸ h3)
  exact le_trans (h2 hba) (h4 (hca.trans hba.symm))

theorem betterRow_true {b c : BidRow} (h : betterRow b c = true) : RowLE b c := by
  unfold betterRow at h
  rcases Bool.or_eq_true_iff.mp h with h | h
  · have hlt : c.amount < b.amount := of_decide_eq_true h
    exact ⟨le_of_lt hlt, fun he => absurd he (ne_of_lt hlt)⟩
  · obtain ⟨he, ht⟩ := Bool.and_eq_true_iff.mp h
    have he' : b.amount = c.amount := of_decide_eq_true he
    have ht' : b.timestamp < c.timestamp := of_decide_eq_true ht
    exact ⟨le_of_eq he'.symm, fun _ => le_of_lt ht'⟩

theorem betterRow_false {b c : BidRow} (h : betterRow b c = false) : RowLE c b := by
  unfold betterRow at h
  obtain ⟨h1, h2⟩ := Bool.or_eq_false_iff.mp h
  have hnlt : ¬ c.amount < b.amount := of_decide_eq_false h1
  refine ⟨le_of_not_lt hnlt, fun he => ?_⟩
  rcases Bool.and_eq_false_iff.mp h2 with h3 | h3
  · exact absurd he (of_decide_eq_false h3)
  · exact le_of_not_lt (of_decide_eq_false h3)

theorem bidLE_refl (a : BidData) : BidLE a a := ⟨le_refl _, fun _ => le_refl _⟩

theorem bidLE_trans (a b c : BidData) (hab : BidLE a b) (hbc : BidLE b c) : BidLE a c := by
  obtain ⟨h1, h2⟩ := hab
  obtain ⟨h3, h4⟩ := hbc
  refine ⟨le_trans h3 h1, fun hca => ?_⟩
  have hba : b.amount = a.amount := le_antisymm h1 (hca ▸ h3)
  exact le_trans (h2 hba) (h4 (hca.trans hba.symm))

theorem betterBid_true {b c : BidData} (h : betterBid b c = true) : BidLE b c := by
  unfold betterBid at h
  rcases Bool.or_eq_true_iff.mp h with h | h
  · have hlt : c.amount < b.amount := of_decide_eq_true h
    exact ⟨le_of_lt hlt, fun he => absurd he (ne_of_lt hlt)⟩
  · obtain ⟨he, ht⟩ := Bool.and_eq_true_iff.mp h
    have he' : b.amount = c.amount := of_decide_eq_true he
    have ht' : b.timestamp < c.timestamp := of_decide_eq_true ht
    exact ⟨le_of_eq he'.symm, fun _ => le_of_lt ht'⟩

theorem betterBid_false {b c : BidData} (h : betterBid b c = false) : BidLE c b := by
  unfold betterBid at h
  obtain ⟨h1, h2⟩ := Bool.or_eq_false_iff.mp h
  have hnlt : ¬ c.amount < b.amount := of_decide_eq_false h1
  refine ⟨le_of_not_lt hnlt, fun he => ?_⟩
  rcases Bool.and_eq_false_iff.mp h2 with h3 | h3
  · exact absurd he (of_decide_eq_false h3)
  · exact le_of_not_lt (of_decide_eq_false h3)

/-- `earliestRow?` of a nonempty row set returns a member of minimal
timestamp. -/
theorem earliestRow?_spec (l : List BidRow) (hl : l ≠ []) :
    ∃ w, earliestRow? l = some w ∧ w ∈ l ∧ ∀ b ∈ l, w.timestamp ≤ b.timestamp := by
  obtain ⟨w, hw, hmem, hP⟩ :=
    pickFold_spec betterTs (fun w b => w.timestamp ≤ b.timestamp)
      (fun _ => le_refl _) (fun _ _ _ h h2 => le_trans h h2)
      (fun b c h => le_of_lt (of_decide_eq_true h))
      (fun b c h => le_of_not_lt (of_decide_eq_false h)) l hl
  exact ⟨w, hw, hmem, hP⟩

/-- The best row under `betterRow` of a nonempty row set is a member that
dominates every row. -/
theorem pickFold_betterRow_spec (l : List BidRow) (hl : l ≠ []) :
    ∃ w, pickFold betterRow l = some w ∧ w ∈ l ∧ ∀ b ∈ l, RowLE w b :=
  pickFold_spec betterRow RowLE rowLE_refl rowLE_trans
    (fun _ _ h => betterRow_true h) (fun _ _ h => betterRow_false h) l hl

/-- The channel-winner projection of a nonempty bid list is a member that
dominates every bid. -/
theorem selectWinner_spec (l : List BidData) (hl : l ≠ []) :
    ∃ w, selectWinner l = some w ∧ w ∈ l ∧ ∀ b ∈ l, BidLE w b :=
  pickFold_spec betterBid BidLE bidLE_refl bidLE_trans
    (fun _ _ h => betterBid_true h) (fun _ _ h => betterBid_false h) l hl

/-- Appending a bid of strictly larger amount than every current bid makes
it the winner projection. -/
theorem selectWinner_append_gt (l : List BidData) (x : BidData)
    (hx : ∀ b ∈ l, b.amount < x.amount) :
    selectWinner (l ++ [x]) = some x := by
  unfold selectWinner
  rw [pickFold_append]
  cases hpk : pickFold betterBid l with
  | none => rfl
  | some c =>
    have hc : c ∈ l := pickFold_mem betterBid hpk
    have : betterBid x c = true := by
      unfold betterBid
      exact Bool.or_eq_true_iff.mpr (.inl (decide_eq_true (hx c hc)))
    simp [pickStep, this]

/-- The maximum-amount fold from incumbent `m0` yields the maximum of
`m0` and the listed amounts, and this maximum is attained. -/
theorem maxAmount_go : ∀ (l : List BidRow) (m0 : Int),
    ∃ m, l.foldl (fun acc b =>
        match acc with
        | none => some b.amount
        | some m => some (max m b.amount)) (some m0) = some m ∧
      m0 ≤ m ∧ (∀ b ∈ l, b.amount ≤ m) ∧ (m = m0 ∨ ∃ b ∈ l, b.amount = m) := by
  intro l
  induction l with
  | nil => exact fun m0 => ⟨m0, rfl, le_refl _, by simp, .inl rfl⟩
  | cons b t ih =>
    intro m0
    obtain ⟨m, hm, hle, hall, hatt⟩ := ih (max m0 b.amount)
    refine ⟨m, by simpa using hm, le_trans (le_max_left _ _) hle, ?_, ?_⟩
    · intro x hx
      rcases List.mem_cons.mp hx with rfl | hx
      · exact le_trans (le_max_right _ _) hle
      · exact hall x hx
    · rcases hatt with he | ⟨x, hx, hxe⟩
      · rcases le_total m0 b.amount with h | h
        · refine .inr ⟨b, List.mem_cons_self _ _, ?_⟩
          rw [he, max_eq_right h]
        · left
          rw [he, max_eq_left h]
      · exact .inr ⟨x, List.mem_cons_of_mem _ hx, hxe⟩

/-- `MAX(amount)` of a nonempty row set: it bounds every amount and is
attained by some row. -/
theorem maxAmount?_spec (l : List BidRow) (hl : l ≠ []) :
    ∃ m, maxAmount? l = some m ∧ (∀ b ∈ l, b.amount ≤ m) ∧ ∃ b ∈ l, b.amount = m := by
  match l, hl with
  | b :: t, _ =>
    obtain ⟨m, hm, hb, hall, hatt⟩ := maxAmount_go t b.amount
    refine ⟨m, by simpa [maxAmount?] using hm, ?_, ?_⟩
    · intro x hx
      rcases List.mem_cons.mp hx with rfl | hx
      · exact hb
      · exact hall x hx
    · rcases hatt with rfl | ⟨x, hx, hxe⟩
      · exact ⟨b, List.mem_cons_self _ _, rfl⟩
      · exact ⟨x, List.mem_cons_of_mem _ hx, hxe⟩

/-! ## Lemmas about the channel map and the store -/

/-- Looking up a key right after setting it yields the set value. -/
theorem lookupChannel_setChannel_self (ch : Channels) (k : String) (st : ChannelState) :
    lookupChannel (setChannel ch k st) k = some st := by
  induction ch with
  | nil => simp [setChannel, lookupChannel]
  | cons p rest ih =>
    obtain ⟨k1, v1⟩ := p
    by_cases hk : k1 = k
    · simp [setChannel, hk, lookupChannel]
    · simp [setChannel, hk, lookupChannel, ih]

/-- `storeBid` only touches the `bids` and `users` tables. -/
theorem storeBid_auctions (db : Db) (b : BidData) :
    (storeBid db b).auctions = db.auctions := by
  simp only [storeBid]
  split <;> rfl

/-- Auction lookup after the accepted-bid projection
`UPDATE auctions SET highest_bidder, highest_bid`: the row is found
exactly when it was found before, with only those two columns rewritten. -/
theorem findAuction_updateAuctionHighest (db : Db) (b : BidData) (id : String) :
    findAuction (updateAuctionHighest db b) id =
      (findAuction db id).map (fun a =>
        if a.id = b.auctionId then
          { a with highestBidder := b.bidder, highestBid := b.amount }
        else a) := by
  unfold findAuction updateAuctionHighest
  have hidpres : ∀ a : AuctionRow,
      (if a.id = b.auctionId then
        ({ a with highestBidder := b.bidder, highestBid := b.amount } : AuctionRow)
      else a).id = a.id := by
    intro a
    by_cases hb : a.id = b.auctionId <;> simp [hb]
  induction db.auctions with
  | nil => rfl
  | cons a t ih =>
    simp only [List.map_cons, List.find?_cons, hidpres a]
    by_cases hid : a.id = id
    · simp [hid]
    · simp [hid, ih]

/-- The auctions-table invariant survives `storeBid` followed by the
highest-bid projection. -/
theorem dbParamsOK_after_accept (db : Db) (b : BidData) (h : DbParamsOK db) :
    DbParamsOK (updateAuctionHighest (storeBid db b) b) := by
  intro a ha
  unfold updateAuctionHighest at ha
  rw [storeBid_auctions] at ha
  simp only [List.mem_map] at ha
  obtain ⟨a0, ha0, rfl⟩ := ha
  by_cases he : a0.id = b.auctionId <;> simpa [he] using h a0 ha0

/-- Inversion of a successful `processBid` call: the signature verified,
the channel and auction rows were found, the amount passed the minimum
check, and the new service state is the recorded mutation. -/
theorem processBid_ok_inv {recover : RecoverFn} {dom : Domain} {s s1 : SysState}
    {cid : String} {bid : BidData}
    (h : processBid recover dom s cid bid = (s1, .ok true)) :
    ∃ cur row,
      validateBidSignature recover dom bid = true ∧
      lookupChannel s.channels cid = some cur ∧
      findAuction s.db bid.auctionId = some row ∧
      (if cur.highestBid = 0 then row.startingPrice
       else cur.highestBid + row.minBidIncrement) ≤ bid.amount ∧
      s1 = { db := updateAuctionHighest (storeBid s.db bid) bid
             channels := setChannel s.channels cid
               { cur with
                 bids := cur.bids ++ [bid]
                 highestBid := bid.amount
                 highestBidder := bid.bidder
                 turnNum := cur.turnNum + 1 } } := by
  by_cases hval : validateBidSignature recover dom bid = false
  · simp [processBid, hval] at h
  · cases hcur : lookupChannel s.channels cid with
    | none => simp [processBid, hval, hcur] at h
    | some cur =>
      cases hrow : findAuction s.db bid.auctionId with
      | none => simp [processBid, hval, hcur, hrow] at h
      | some row =>
        by_cases hlow : bid.amount <
            (if cur.highestBid = 0 then row.startingPrice
             else cur.highestBid + row.minBidIncrement)
        · simp [processBid, hval, hcur, hrow, hlow] at h
        · have hev : processBid recover dom s cid bid =
              ({ db := updateAuctionHighest (storeBid s.db bid) bid
                 channels := setChannel s.channels cid
                   { cur with
                     bids := cur.bids ++ [bid]
                     highestBid := bid.amount
                     highestBidder := bid.bidder
                     turnNum := cur.turnNum + 1 } }, .ok true) := by
            simp [processBid, hval, hcur, hrow, hlow]
          rw [hev] at h
          refine ⟨cur, row, by simpa using hval, rfl, rfl, not_lt.mp hlow, ?_⟩
          exact ((Prod.mk.injEq _ _ _ _).mp h).1.symm

/-- A `processBid` call that reports any error leaves the service state
(in particular the in-memory channel map) exactly as it was. -/
theorem processBid_error_state {recover : RecoverFn} {dom : Domain} {s : SysState}
    {cid : String} {bid : BidData} {e : BidError}
    (h : (processBid recover dom s cid bid).2 = .error e) :
    (processBid recover dom s cid bid).1 = s := by
  by_cases hval : validateBidSignature recover dom bid = false
  · simp [processBid, hval]
  · cases hcur : lookupChannel s.channels cid with
    | none => simp [processBid, hval, hcur]
    | some cur =>
      cases hrow : findAuction s.db bid.auctionId with
      | none => simp [processBid, hval, hcur, hrow]
      | some row =>
        by_cases hlow : bid.amount <
            (if cur.highestBid = 0 then row.startingPrice
             else cur.highestBid + row.minBidIncrement)
        · simp [processBid, hval, hcur, hrow, hlow]
        · exfalso
          simp [processBid, hval, hcur, hrow, hlow] at h

/-- A found auction row belongs to the auctions table. -/
theorem findAuction_mem {db : Db} {id : String} {row : AuctionRow}
    (h : findAuction db id = some row) : row ∈ db.auctions := by
  unfold findAuction at h
  exact List.mem_of_find?_eq_some h

/-- Every state reachable by accepted bids on a channel keeps the
data-model invariant on the store and the channel-state invariant on the
channel. -/
theorem chanReach_inv {recover : RecoverFn} {dom : Domain} {cid : String}
    {s : SysState} (h : ChanReach recover dom cid s) :
    DbParamsOK s.db ∧ ∃ st, lookupChannel s.channels cid = some st ∧ ChannelInv st := by
  induction h with
  | init s aid hdb hch =>
    refine ⟨hdb, initialChannelState aid, hch, rfl, List.Pairwise.nil, ?_, .inl ⟨rfl, rfl, rfl⟩⟩
    intro b hb
    simp [initialChannelState] at hb
  | step s s1 bid hreach heq ih =>
    obtain ⟨hdb, st, hst, hturn, hpair, hpos, hsel⟩ := ih
    obtain ⟨cur, row, hval, hcur, hrow, hmin, rfl⟩ := processBid_ok_inv heq
    have hcureq : cur = st := by
      rw [hcur] at hst
      exact Option.some_inj.mp hst
    subst hcureq
    have hrowmem : row ∈ s.db.auctions := findAuction_mem hrow
    have hsp : 0 < row.startingPrice := (hdb row hrowmem).1
    have hinc : 0 < row.minBidIncrement := (hdb row hrowmem).2
    have hkey : (∀ b ∈ cur.bids, b.amount < bid.amount) ∧ 0 < bid.amount := by
      rcases hsel with ⟨hbids, hhb, -⟩ | ⟨w, hw, hhb, -⟩
      · rw [hhb, if_pos rfl] at hmin
        constructor
        · intro b hb
          rw [hbids] at hb
          simp at hb
        · exact lt_of_lt_of_le hsp hmin
      · have hwmem : w ∈ cur.bids := pickFold_mem betterBid hw
        have hwpos : 0 < w.amount := hpos w hwmem
        have hhb0 : cur.highestBid ≠ 0 := by
          rw [hhb]
          exact ne_of_gt hwpos
        rw [if_neg hhb0, hhb] at hmin
        have hwlt : w.amount < bid.amount :=
          lt_of_lt_of_le (lt_add_of_pos_right _ hinc) hmin
        obtain ⟨w1, hw1, -, hdom⟩ :=
          selectWinner_spec cur.bids (List.ne_nil_of_mem hwmem)
        have hw1w : w1 = w := by
          rw [hw] at hw1
          exact (Option.some_inj.mp hw1).symm
        subst hw1w
        constructor
        · intro b hb
          exact lt_of_le_of_lt (hdom b hb).1 hwlt
        · exact lt_trans hwpos hwlt
    refine ⟨dbParamsOK_after_accept _ _ hdb, _, lookupChannel_setChannel_self _ _ _,
      ?_, ?_, ?_, ?_⟩
    · simp [hturn]
    · refine List.pairwise_append.mpr ⟨hpair, List.pairwise_singleton _ _, ?_⟩
      intro a ha b hb
      rw [List.mem_singleton.mp hb]
      exact hkey.1 a ha
    · intro b hb
      rcases List.mem_append.mp hb with hb | hb
      · exact hpos b hb
      · rw [List.mem_singleton.mp hb]
        exact hkey.2
    · exact .inr ⟨bid, selectWinner_append_gt _ _ hkey.1, rfl, rfl⟩

/-- Auction lookup is unaffected by `storeBid`. -/
theorem findAuction_storeBid (db : Db) (b : BidData) (id : String) :
    findAuction (storeBid db b) id = findAuction db id := by
  unfold findAuction
  rw [storeBid_auctions]

/-- A found auction row carries the id it was looked up by. -/
theorem findAuction_id {db : Db} {id : String} {row : AuctionRow}
    (h : findAuction db id = some row) : row.id = id := by
  unfold findAuction at h
  have h2 := List.find?_some h
  simpa using h2

/-! ## Claim theorems -/

/-- C1: the claim says settling an auction with zero recorded bids marks
it completed with no winner and settlement status completed.  The code
does the opposite: the winning-bid query joins `auctions` with `bids` and
filters on `b.amount = MAX(amount)`, which yields no row when the auction
has no bids, so `settleAuction` throws `'Auction or winning bid not
found'`, marks the settlement failed, records a failed settlement attempt,
and leaves the auction status untouched; the dedicated no-bids branch
(`handleNoBidsSettlement`) is unreachable for a zero-bid auction. -/
theorem c1_settle_zero_bids_marks_failed :
    c1Db.bids = [] ∧
    (settleAuction cc0 5000 c1Db "a1").2 = .error "Auction or winning bid not found" ∧
    (settleAuction cc0 5000 c1Db "a1").1.auctions.map
      (fun a => (a.status, a.settlementStatus)) = [("active", some "failed")] ∧
    (settleAuction cc0 5000 c1Db "a1").1.attempts.map
      (fun r => (r.status, r.errorMessage)) =
      [("failed", some "Auction or winning bid not found")] :=
  ⟨rfl, rfl, rfl, rfl⟩

/-- C2: the claim says a bid whose timestamp is after the auction's end
time is rejected by `processBid`.  The code performs no time-window check
at all: the bid `c2Bid` carries timestamp 2000 while the auction's end
time is 1000, its signature verifies and its amount meets the starting
price, and `processBid` accepts it into the ledger. -/
theorem c2_late_bid_accepted :
    c2Bid.timestamp = 2000 ∧
    (findAuction c2Db "a1").map (fun a => a.endTime) = some 1000 ∧
    (processBid recover0 dom0 c2Sys "ch" c2Bid).2 = .ok true ∧
    (lookupChannel (processBid recover0 dom0 c2Sys "ch" c2Bid).1.channels "ch").map
      (fun st => st.bids) = some [c2Bid] :=
  ⟨rfl, rfl, rfl, rfl⟩

/-- C3: the claim says a bid whose nonce does not strictly exceed the
bidder's last recorded nonce is rejected by `processBid`.  The code never
reads the nonce during validation: the same bidder submits nonce 5 twice
and both bids are accepted, so accepted nonces are not strictly
increasing. -/
theorem c3_stale_nonce_accepted :
    c3Bid1.bidder = c3Bid2.bidder ∧
    c3Bid2.nonce ≤ c3Bid1.nonce ∧
    (processBid recover0 dom0 c2Sys "ch" c3Bid1).2 = .ok true ∧
    (processBid recover0 dom0 c3Sys1 "ch" c3Bid2).2 = .ok true ∧
    (lookupChannel (processBid recover0 dom0 c3Sys1 "ch" c3Bid2).1.channels "ch").map
      (fun st => st.bids) = some [c3Bid1, c3Bid2] :=
  ⟨rfl, le_refl _, rfl, rfl, rfl⟩

/-- C9: `validateBidSignature` returns `true` exactly when the recovery
collaborator succeeds with an address that lower-cases to the claimed
bidder, and a recovery failure (malformed signature) yields `false`
rather than escaping the function. -/
theorem c9_validateBidSignature_correct (recover : RecoverFn) (dom : Domain) (b : BidData) :
    (validateBidSignature recover dom b = true ↔
      ∃ a, recover dom (bidMessageOf b) b.signature = .ok a ∧
        lowerStr a = lowerStr b.bidder) ∧
    ∀ e, recover dom (bidMessageOf b) b.signature = .error e →
      validateBidSignature recover dom b = false := by
  constructor
  · unfold validateBidSignature
    cases hr : recover dom (bidMessageOf b) b.signature with
    | error e => simp
    | ok a => simp [beq_iff_eq]
  · intro e he
    unfold validateBidSignature
    rw [he]

/-- C9 witness: an honest recovery verifies the mixed-case bidder of
`c9Bid`, and the always-malformed recovery yields `false`. -/
theorem c9_witness :
    validateBidSignature recover0 dom0 c9Bid = true ∧
    validateBidSignature recoverBad dom0 c9Bid = false := by
  constructor
  · exact (c9_validateBidSignature_correct recover0 dom0 c9Bid).1.mpr ⟨c9Bid.bidder, rfl, rfl⟩
  · exact (c9_validateBidSignature_correct recoverBad dom0 c9Bid).2 "invalid signature" rfl

/-- C10: whenever `processBid` reports an error (invalid signature,
unknown channel, auction not found, or bid below the required minimum —
the only errors it produces), the service state, and with it the channel
map and every channel's bid list, highest bid, highest bidder and turn
counter, is exactly the state before the call. -/
theorem c10_processBid_rejection_preserves_state (recover : RecoverFn) (dom : Domain)
    (s : SysState) (cid : String) (bid : BidData) (e : BidError)
    (h : (processBid recover dom s cid bid).2 = .error e) :
    (processBid recover dom s cid bid).1 = s :=
  processBid_error_state h

/-- C10 witness: a bid on an unknown channel id is rejected with
`channelNotFound` and the state is unchanged. -/
theorem c10_witness :
    (processBid recover0 dom0 ⟨c2Db, []⟩ "ch" c2Bid).2 = .error .channelNotFound ∧
    (processBid recover0 dom0 ⟨c2Db, []⟩ "ch" c2Bid).1 = ⟨c2Db, []⟩ :=
  ⟨rfl, c10_processBid_rejection_preserves_state recover0 dom0 ⟨c2Db, []⟩ "ch" c2Bid
    .channelNotFound rfl⟩

/-- C4 counterexample: the claim says resubmitting the identical accepted
bid is a no-op success.  In the code the duplicate fails the minimum-bid
check — its amount now sits below `highestBid + minIncrement` — and
`processBid` throws `'Bid amount too low'` instead of returning success
(the database-level `ON CONFLICT (bid_hash) DO NOTHING` idempotency is
never reached). -/
theorem c4_duplicate_submission_errors :
    (processBid recover0 dom0 c2Sys "ch" c4Bid).2 = .ok true ∧
    (processBid recover0 dom0 c4Sys1 "ch" c4Bid).2 = .error (.bidTooLow 110 100) ∧
    (processBid recover0 dom0 c4Sys1 "ch" c4Bid).1 = c4Sys1 :=
  ⟨rfl, rfl, rfl⟩

/-- C4 amended: after a bid is accepted, resubmitting the identical
payload is rejected with a bid-too-low error naming
`acceptedAmount + minIncrement` as the required minimum (given a positive
increment and a positive bid amount), and the failed second call leaves
the service state — in particular the channel's bid list, highest bid,
highest bidder and turn counter — unchanged. -/
theorem c4_duplicate_second_submission_rejected (recover : RecoverFn) (dom : Domain)
    (s s1 : SysState) (cid : String) (bid : BidData) (row : AuctionRow)
    (hfirst : processBid recover dom s cid bid = (s1, .ok true))
    (hrow : findAuction s.db bid.auctionId = some row)
    (hinc : 0 < row.minBidIncrement) (hamt : 0 < bid.amount) :
    processBid recover dom s1 cid bid =
      (s1, .error (.bidTooLow (bid.amount + row.minBidIncrement) bid.amount)) := by
  obtain ⟨cur, row1, hval, hcur, hrow1, hmin, hs1⟩ := processBid_ok_inv hfirst
  rw [hrow] at hrow1
  have hrow1eq : row = row1 := Option.some_inj.mp hrow1
  subst hrow1eq
  have hchan2 : lookupChannel s1.channels cid = some
      { cur with
        bids := cur.bids ++ [bid]
        highestBid := bid.amount
        highestBidder := bid.bidder
        turnNum := cur.turnNum + 1 } := by
    rw [hs1]
    exact lookupChannel_setChannel_self _ _ _
  have hfind2 : findAuction s1.db bid.auctionId = some
      { row with highestBidder := bid.bidder, highestBid := bid.amount } := by
    rw [hs1]
    show findAuction (updateAuctionHighest (storeBid s.db bid) bid) bid.auctionId = _
    rw [findAuction_updateAuctionHighest, findAuction_storeBid, hrow]
    simp [findAuction_id hrow]
  have hne : bid.amount ≠ 0 := ne_of_gt hamt
  have hlow : bid.amount < bid.amount + row.minBidIncrement :=
    lt_add_of_pos_right _ hinc
  simp [processBid, hval, hchan2, hfind2, hne, hlow]

/-- C4 witness: the amended behaviour at the concrete duplicate scenario
(starting price 100, increment 10, duplicate amount 100). -/
theorem c4_amended_witness :
    processBid recover0 dom0 c4Sys1 "ch" c4Bid = (c4Sys1, .error (.bidTooLow 110 100)) :=
  c4_duplicate_second_submission_rejected recover0 dom0 c2Sys c4Sys1 "ch" c4Bid
    (mkAuction "a1" 100 10 0 1000 none) rfl rfl (by decide) (by decide)

/-- C5: with the signature verified, the channel present, and the auction
row found, `processBid` accepts a bid exactly when its amount reaches the
spec's `requiredMinimum` — the starting price while the channel has no
accepted bids, and the current highest bid plus the minimum increment
afterwards (the link hypothesis records that an empty bid list coincides
with a zero highest bid, which holds in every reachable channel state).
Equality with the minimum is accepted, one unit less is rejected. -/
theorem c5_min_bid_rule (recover : RecoverFn) (dom : Domain) (s : SysState)
    (cid : String) (bid : BidData) (st : ChannelState) (row : AuctionRow)
    (hch : lookupChannel s.channels cid = some st)
    (hrow : findAuction s.db bid.auctionId = some row)
    (hval : validateBidSignature recover dom bid = true)
    (hlink : st.bids = [] ↔ st.highestBid = 0) :
    (processBid recover dom s cid bid).2 = .ok true ↔
      specRequiredMinimum row st ≤ bid.amount := by
  have hmineq : (if st.highestBid = 0 then row.startingPrice
      else st.highestBid + row.minBidIncrement) = specRequiredMinimum row st := by
    unfold specRequiredMinimum
    by_cases hb : st.bids = []
    · rw [if_pos (hlink.mp hb), if_pos hb]
    · rw [if_neg (fun h => hb (hlink.mpr h)), if_neg hb]
  by_cases hlow : bid.amount <
      (if st.highestBid = 0 then row.startingPrice
       else st.highestBid + row.minBidIncrement)
  · have h2 : (processBid recover dom s cid bid).2 =
        .error (.bidTooLow (specRequiredMinimum row st) bid.amount) := by
      rw [← hmineq]
      simp [processBid, hval, hch, hrow, hlow]
    rw [h2]
    constructor
    · intro h
      cases h
    · intro h
      exact absurd h (not_le.mpr (hmineq ▸ hlow))
  · have h2 : (processBid recover dom s cid bid).2 = .ok true := by
      simp [processBid, hval, hch, hrow, hlow]
    rw [h2]
    constructor
    · intro _
      exact hmineq ▸ not_lt.mp hlow
    · intro _
      rfl

/-- C5 witness: on the concrete channel with highest bid 100 and
increment 10, the bid of exactly 110 is accepted and the bid of 109 is
rejected. -/
theorem c5_witness :
    (processBid recover0 dom0 c5Sys "ch" c5BidHi).2 = .ok true ∧
    ¬ (processBid recover0 dom0 c5Sys "ch" c5BidLo).2 = .ok true := by
  constructor
  · exact (c5_min_bid_rule recover0 dom0 c5Sys "ch" c5BidHi c5St
      (mkAuction "a1" 100 10 0 1000 none) rfl rfl rfl
      (by constructor <;> (intro h; cases h))).mpr (by decide)
  · intro hok
    have := (c5_min_bid_rule recover0 dom0 c5Sys "ch" c5BidLo c5St
      (mkAuction "a1" 100 10 0 1000 none) rfl rfl rfl
      (by constructor <;> (intro h; cases h))).mp hok
    exact absurd this (by decide)

/-- C6: with the auction found and at least one recorded bid, the
settlement winning-bid query returns the auction row paired with a stored
bid of maximal amount (integer comparison), and among the maximal-amount
bids one with the earliest timestamp; `getWinningBid` returns a bid with
the same winning property.  Amounts are integers per the spec's data
model, the bids table schema being outside the repository. -/
theorem c6_settlement_winner_selection (db : Db) (auctionId : String) (a : AuctionRow)
    (ha : findAuction db auctionId = some a)
    (hne : bidsFor db auctionId ≠ []) :
    (∃ w, winnerRowQuery db auctionId = some (a, w) ∧
      IsWinningRow (bidsFor db auctionId) w) ∧
    (∃ w, IsWinningRow (bidsFor db auctionId) w ∧
      getWinningBid db auctionId = some
        { auctionId := auctionId, bidder := w.bidderId, amount := w.amount
          signature := w.signature, nonce := w.nonce, timestamp := w.timestamp }) := by
  obtain ⟨m, hm, hmax, b0, hb0, hb0m⟩ := maxAmount?_spec (bidsFor db auctionId) hne
  constructor
  · have hb0c : b0 ∈ (bidsFor db auctionId).filter (fun b => b.amount = m) :=
      List.mem_filter.mpr ⟨hb0, decide_eq_true hb0m⟩
    obtain ⟨w, hw, hwmem, hwts⟩ :=
      earliestRow?_spec ((bidsFor db auctionId).filter (fun b => b.amount = m))
        (List.ne_nil_of_mem hb0c)
    have hwf := List.mem_filter.mp hwmem
    have hwamt : w.amount = m := of_decide_eq_true hwf.2
    refine ⟨w, ?_, hwf.1, ?_, ?_⟩
    · simp [winnerRowQuery, ha, hm, hw]
    · intro b hb
      exact hwamt ▸ hmax b hb
    · intro b hb hbe
      exact hwts b (List.mem_filter.mpr ⟨hb, decide_eq_true (hbe.trans hwamt)⟩)
  · obtain ⟨g, hg, hgmem, hgdom⟩ := pickFold_betterRow_spec (bidsFor db auctionId) hne
    refine ⟨g, ⟨hgmem, fun b hb => (hgdom b hb).1, fun b hb hbe => (hgdom b hb).2 hbe⟩, ?_⟩
    unfold getWinningBid
    rw [hg]
    rfl

/-- C6 witness: on the store with bids of amounts 9 (time 5), 10 (time 3)
and 10 (time 7), both queries select the amount-10 bid at time 3. -/
theorem c6_witness :
    (∃ w, winnerRowQuery c6Db "a1" = some (mkAuction "a1" 1 1 0 1000 none, w) ∧
      IsWinningRow (bidsFor c6Db "a1") w) ∧
    (∃ w, IsWinningRow (bidsFor c6Db "a1") w ∧
      getWinningBid c6Db "a1" = some
        { auctionId := "a1", bidder := w.bidderId, amount := w.amount
          signature := w.signature, nonce := w.nonce, timestamp := w.timestamp }) :=
  c6_settlement_winner_selection c6Db "a1" (mkAuction "a1" 1 1 0 1000 none) rfl (by decide)

/-- C7 counterexample: the claim says a settle call whose auction end time
has not yet passed is rejected with no settlement state change.  At clock
value 5, with the auction's end time 1000 still in the future,
`settleAuction` runs to completion and marks the auction completed with
settlement status completed. -/
theorem c7_counterexample :
    (findAuction c7Db "a1").map (fun a => a.endTime) = some 1000 ∧
    (5 : Nat) < 1000 ∧
    (settleAuction cc0 5 c7Db "a1").2 = .ok () ∧
    (settleAuction cc0 5 c7Db "a1").1.auctions.map
      (fun a => (a.status, a.settlementStatus)) = [("completed", some "completed")] :=
  ⟨rfl, by decide, rfl, rfl⟩

/-- C7 amended: neither the settle route nor `settleAuction` checks the
auction's end time — end-time gating exists only in the settlement cron
job's SQL filter.  A settle call at any clock value `t` before the end
time is processed exactly like one after it: for an existing ERC-7824
auction (no contract auction id) with at least one positive-amount
recorded bid, it succeeds and marks the auction completed with settlement
status completed. -/
theorem c7_settle_ignores_end_time (cc : ContractFn) (now t : Nat) (db : Db)
    (auctionId : String) (a : AuctionRow)
    (ha : findAuction db auctionId = some a)
    (hcaid : a.contractAuctionId = none)
    (hne : bidsFor db auctionId ≠ [])
    (hpos : ∀ b ∈ bidsFor db auctionId, 0 < b.amount)
    (ht : t < a.endTime) :
    (settleAuction cc now db auctionId).2 = .ok () ∧
    (settleAuction cc now db auctionId).1 =
      markCompleted (markProcessing db auctionId now) auctionId := by
  obtain ⟨m, hm, hmax, b0, hb0, hb0m⟩ := maxAmount?_spec (bidsFor db auctionId) hne
  have hb0c : b0 ∈ (bidsFor db auctionId).filter (fun b => b.amount = m) :=
    List.mem_filter.mpr ⟨hb0, decide_eq_true hb0m⟩
  obtain ⟨w, hw, hwmem, -⟩ :=
    earliestRow?_spec ((bidsFor db auctionId).filter (fun b => b.amount = m))
      (List.ne_nil_of_mem hb0c)
  have hwf := List.mem_filter.mp hwmem
  have hwamt : w.amount = m := of_decide_eq_true hwf.2
  have hq : winnerRowQuery db auctionId = some (a, w) := by
    simp [winnerRowQuery, ha, hm, hw]
  have hwpos : 0 < w.amount := by
    rw [hwamt]
    exact hb0m ▸ hpos b0 hb0
  have hne0 : w.amount ≠ 0 := ne_of_gt hwpos
  constructor <;> simp [settleAuction, hq, hne0, hcaid]

/-- C7 amended witness: the behaviour at the concrete store `c7Db` with
clock value 5 before the end time 1000. -/
theorem c7_amended_witness :
    (settleAuction cc0 5 c7Db "a1").2 = .ok () ∧
    (settleAuction cc0 5 c7Db "a1").1 =
      markCompleted (markProcessing c7Db "a1" 5) "a1" :=
  c7_settle_ignores_end_time cc0 5 5 c7Db "a1" (mkAuction "a1" 100 10 0 1000 none)
    rfl rfl (by decide) (by decide) (by decide)

/-- C8: `createAuctionChannel` installs the state with empty bid list,
highest bid 0, highest bidder the zero address and turn counter 0; and in
every state reachable by accepted bids on a channel, the channel's turn
counter equals the number of accepted bids and its highest bid/bidder is
exactly the max-amount bid of its ordered bid list, ties broken by
earliest timestamp (the empty channel keeps the zero defaults). -/
theorem c8_channel_invariant :
    (∀ aid, initialChannelState aid =
      { auctionId := aid, participants := [], bids := [], highestBid := 0
        highestBidder := zeroAddress, turnNum := 0 }) ∧
    ∀ (recover : RecoverFn) (dom : Domain) (cid : String) (s : SysState),
      ChanReach recover dom cid s →
      ∃ st, lookupChannel s.channels cid = some st ∧
        st.turnNum = st.bids.length ∧
        ((st.bids = [] ∧ st.highestBid = 0 ∧ st.highestBidder = zeroAddress) ∨
         ∃ w, selectWinner st.bids = some w ∧
           st.highestBid = w.amount ∧ st.highestBidder = w.bidder) := by
  refine ⟨fun aid => rfl, fun recover dom cid s h => ?_⟩
  obtain ⟨-, st, hst, hturn, -, -, hsel⟩ := chanReach_inv h
  exact ⟨st, hst, hturn, hsel⟩

/-- C8 witness: the invariant evaluated after the concrete accepted bids
of 100 and 110 on a fresh channel. -/
theorem c8_witness :
    ∃ st, lookupChannel c8Sys2.channels "ch" = some st ∧
      st.turnNum = st.bids.length ∧
      ((st.bids = [] ∧ st.highestBid = 0 ∧ st.highestBidder = zeroAddress) ∨
       ∃ w, selectWinner st.bids = some w ∧
         st.highestBid = w.amount ∧ st.highestBidder = w.bidder) :=
  c8_channel_invariant.2 recover0 dom0 "ch" c8Sys2
    (ChanReach.step c8Sys1 c8Sys2 c8BidB
      (ChanReach.step c8Sys0 c8Sys1 c8BidA
        (ChanReach.init c8Sys0 "a1" (by unfold DbParamsOK; decide) rfl)
        rfl)
      rfl)

end NitroCanvas
